import Mathlib

/-!
Shallow embedding of `src/electrumx.rs` (atomicalsir): the ElectrumX client,
its failover/retry engine (`impl Http for ElectrumX`, fn `post`), the UTXO
listing pipeline (`get_unspent_scripthash`, `get_unspent_address`,
`wait_until_utxo`), the response envelopes, and the builder.
-/

namespace Atomicalsir

/-- Chain tag (`bitcoin::Network`), treated as an opaque identifier. -/
inductive Network where
  | bitcoin
  | testnet
  | signet
  | regtest
deriving DecidableEq, Repr

/-- Modelled from the spec: the `Unspent` wire shape (spec section 6) — the
`r#type` module of the repository is not under `src/`; minimum recognized
fields `txid`, `vout`, `value` (satoshis), `atomicals`. -/
structure Unspent where
  txid : String
  vout : Nat
  value : Nat
  atomicals : List String
deriving DecidableEq, Repr

/-- Modelled from the spec: the `Utxo` domain shape (spec sections 3 and 6) —
the `r#type` module of the repository is not under `src/`; carries
`{ txid, vout, value, atomicals }`. -/
structure Utxo where
  txid : String
  vout : Nat
  value : Nat
  atomicals : List String
deriving DecidableEq, Repr

/-- Modelled from the spec: normalization `Unspent → Utxo` (`u.into()` at
`electrumx.rs:90`); preserves the essential fields. -/
def Unspent.toUtxo (u : Unspent) : Utxo :=
  ⟨u.txid, u.vout, u.value, u.atomicals⟩

/-- The comparator of `utxos.sort_by(|a, b| a.value.cmp(&b.value))`
(`electrumx.rs:93`): order by `value`. -/
def valueLe (a b : Utxo) : Prop :=
  a.value ≤ b.value

instance : DecidableRel valueLe :=
  fun a b => inferInstanceAs (Decidable (a.value ≤ b.value))

instance : IsTotal Utxo valueLe :=
  ⟨fun a b => Nat.le_total a.value b.value⟩

instance : IsTrans Utxo valueLe :=
  ⟨fun _ _ _ h h' => Nat.le_trans h h'⟩

/-- Pure core of `Api::get_unspent_scripthash` (`electrumx.rs:77-96`), given
the decoded `response` payload of `blockchain.scripthash.listunspent`:
normalize each `Unspent` into a `Utxo` and sort ascending by `value`.
Rust's `sort_by` is a stable sort; it is modelled by stable insertion sort. -/
def get_unspent_scripthash (upstream : List Unspent) : List Utxo :=
  List.insertionSort valueLe (upstream.map Unspent.toUtxo)

/-- Outcome of a Rust call that may return `Ok`, `Err`, or panic. -/
inductive RustResult (α : Type) where
  | ok : α → RustResult α
  | err : String → RustResult α
  | panicked : RustResult α
deriving DecidableEq, Repr

/-- `Api::get_unspent_address` (`electrumx.rs:67-75`). The address primitive
is external (spec section 1 puts address parsing out of scope): `parsed` is
`none` when the string does not parse as an address, and `some n` when it
parses as an address of network `n`. `Address::from_str(address).unwrap()`
panics when parsing fails; `.require_network(*self.network())?` fails with an
address-mismatch error when the parsed network differs from the configured
one; only then is the scripthash derived (external `util::address2scripthash`,
assumed total) and the RPC issued, whose decoded payload is `upstream`. -/
def get_unspent_address (network : Network) (parsed : Option Network)
    (upstream : List Unspent) : RustResult (List Utxo) :=
  match parsed with
  | none => .panicked
  | some addrNet =>
    if addrNet = network then .ok (get_unspent_scripthash upstream)
    else .err "address mismatch"

/-- The selection predicate of `Api::wait_until_utxo` (`electrumx.rs:104`):
`u.atomicals.is_empty() && u.value >= satoshis`. -/
def spendable (satoshis : Nat) (u : Utxo) : Bool :=
  u.atomicals.isEmpty && decide (satoshis ≤ u.value)

/-- `Api::wait_until_utxo` (`electrumx.rs:98-113`) for a fixed valid address:
`listings k` is the decoded `listunspent` payload seen by the k-th polling
iteration; each iteration scans the sorted listing in order and returns the
first spendable `Utxo`, otherwise it sleeps 5 seconds and polls again. The
source loop is unbounded; `fuel` bounds the number of modelled iterations
(`none` means still polling after `fuel` iterations). -/
def wait_until_utxo (listings : Nat → List Unspent) (satoshis : Nat) :
    Nat → Nat → Option Utxo
  | _, 0 => none
  | k, fuel + 1 =>
    match (get_unspent_scripthash (listings k)).find? (spendable satoshis) with
    | some u => some u
    | none => wait_until_utxo listings satoshis (k + 1) fuel

/-- Substring search on lists: does `hay` contain `needle` as a contiguous
infix? Used to ask whether an error message mentions a URI. -/
def containsSub {α : Type} [BEq α] (needle : List α) : List α → Bool
  | [] => needle.isEmpty
  | a :: t => needle.isPrefixOf (a :: t) || containsSub needle t

/-- A model of the JSON values exchanged on the wire (spec section 6). -/
inductive Json where
  | null : Json
  | bool : Bool → Json
  | num : Nat → Json
  | str : String → Json
  | arr : List Json → Json
  | obj : List (String × Json) → Json

/-- First binding of `key` among the fields of a JSON object. -/
def lookupField (key : String) : List (String × Json) → Option Json
  | [] => none
  | (k, v) :: fs => if k = key then some v else lookupField key fs

/-- Field access on a JSON value: `none` unless it is an object with the
field present. -/
def Json.getField (j : Json) (key : String) : Option Json :=
  match j with
  | .obj fs => lookupField key fs
  | _ => none

/-- Modelled from the spec: the single-layer envelope `Response<T>`
(`{"response": <payload>}`, spec section 6) — the `r#type` module is not
under `src/`. -/
structure Response (α : Type) where
  response : α
deriving DecidableEq, Repr

/-- Modelled from the spec: the inner `{"result": <payload>, …}` layer
`ResponseResult<T>` (spec section 6) — the `r#type` module is not under
`src/`. -/
structure ResponseResult (α : Type) where
  result : α
deriving DecidableEq, Repr

/-- Modelled from the spec: `Ticker` is an opaque pass-through payload
(spec section 3: "opaque domain payloads"). -/
def Ticker : Type := Json

/-- Decoder of the opaque `Ticker` payload: pass-through. -/
def decodeTicker (j : Json) : Option Ticker :=
  some j

/-- serde-style decoder for `Response<T>` given a decoder for `T`: the
`response` field must be present and decode; unknown fields are ignored
(serde's default). -/
def decodeResponse {α : Type} (dec : Json → Option α) (j : Json) :
    Option (Response α) :=
  ((j.getField "response").bind dec).map Response.mk

/-- serde-style decoder for `ResponseResult<T>` given a decoder for `T`:
the `result` field must be present and decode; unknown fields are ignored. -/
def decodeResponseResult {α : Type} (dec : Json → Option α) (j : Json) :
    Option (ResponseResult α) :=
  ((j.getField "result").bind dec).map ResponseResult.mk

/-- Decoder for one atomical identifier inside the `atomicals` array
(modelled from the spec: identifiers are strings). -/
def decodeAtomicalId (j : Json) : Option String :=
  match j with
  | .str s => some s
  | _ => none

/-- Decode every element of a JSON list, failing if any element fails. -/
def decodeList {α : Type} (dec : Json → Option α) : List Json → Option (List α)
  | [] => some []
  | x :: xs =>
    match dec x, decodeList dec xs with
    | some a, some rest => some (a :: rest)
    | _, _ => none

/-- Modelled from the spec: serde-style decoder for the `Unspent` wire shape
(spec section 6): `txid` string, `vout` and `value` integers, `atomicals`
array; additional fields are ignored. -/
def decodeUnspent (j : Json) : Option Unspent :=
  match j.getField "txid", j.getField "vout", j.getField "value",
      j.getField "atomicals" with
  | some (.str txid), some (.num vout), some (.num value), some (.arr ats) =>
    (decodeList decodeAtomicalId ats).map fun l => ⟨txid, vout, value, l⟩
  | _, _, _, _ => none

/-- serde-style decoder for `Vec<T>`: the value must be a JSON array and
every element must decode. -/
def decodeArray {α : Type} (dec : Json → Option α) (j : Json) :
    Option (List α) :=
  match j with
  | .arr xs => decodeList dec xs
  | _ => none

/-- Decoder for a JSON string payload (the txid returned by `broadcast`). -/
def decodeString (j : Json) : Option String :=
  match j with
  | .str s => some s
  | _ => none

/-- Decode-and-unwrap of `Api::get_by_ticker` (`electrumx.rs:38-51`): the
call decodes the body as `Response<ResponseResult<Ticker>>` and returns
`.response.result` — a double-layer unwrap. -/
def get_by_ticker (body : Json) : Option Ticker :=
  (decodeResponse (decodeResponseResult decodeTicker) body).map
    fun r => r.response.result

/-- Decode-and-unwrap of the `listunspent` call inside
`Api::get_unspent_scripthash` (`electrumx.rs:81-88`): the body is decoded as
`Response<Vec<Unspent>>` and `.response` is returned — a single-layer
unwrap. -/
def listunspent (body : Json) : Option (List Unspent) :=
  (decodeResponse (decodeArray decodeUnspent) body).map fun r => r.response

/-- Decode-and-unwrap of `Api::broadcast` (`electrumx.rs:115-126`): the body
is decoded as `Response<String>` and `.response` (the txid) is returned — a
single-layer unwrap. -/
def broadcast (body : Json) : Option String :=
  (decodeResponse decodeString body).map fun r => r.response

/-- Outcome of one HTTP attempt inside `ElectrumX::post`
(`electrumx.rs:163-178`): `success` models send Ok, text Ok, serde Ok;
`decodeFailure` models a serde_json parse failure on a received body (line
168); `networkFailure` models a failed send (line 174); `textFailure m`
models an error from `response.text()`, which the `?` at line 165 propagates
to the caller at once. -/
inductive AttemptResult (ρ : Type) where
  | success : ρ → AttemptResult ρ
  | decodeFailure : AttemptResult ρ
  | networkFailure : AttemptResult ρ
  | textFailure : String → AttemptResult ρ
deriving DecidableEq, Repr

/-- Retryable attempt outcomes: network and decode failures keep the loop
going; success and text-extraction errors end the call. -/
def AttemptResult.isRetryable {ρ : Type} : AttemptResult ρ → Bool
  | .decodeFailure => true
  | .networkFailure => true
  | _ => false

/-- The overall outcome of one `post` call. -/
inductive PostResult (ρ : Type) where
  | ok : ρ → PostResult ρ
  | err : String → PostResult ρ
  | panicked : PostResult ρ
deriving DecidableEq, Repr

/-- The exhaustion error message (`electrumx.rs:186`). -/
def exhaustedMsg : String := "All URIs exhausted, still failed"

/-- The fixed retry delay in seconds (`electrumx.rs:154`). -/
def retryDelaySecs : Nat := 2

/-- One HTTP attempt as recorded by the loop: the URI index it hit, the
per-URI attempt counter at that moment, and how many seconds were slept
immediately before it (the retry branch sleeps `retryDelaySecs`, line 191;
the switch branch does not sleep). -/
structure AttemptRecord where
  uri_index : Nat
  attempts : Nat
  sleptBefore : Nat
deriving DecidableEq, Repr

/-- Result and attempt trace of one `post` call. -/
structure PostRun (ρ : Type) where
  result : PostResult ρ
  trace : List AttemptRecord
deriving DecidableEq, Repr

/-- The failover/retry loop of `impl Http for ElectrumX`, fn `post`
(`electrumx.rs:146-195`). `oracle t` is the outcome of the t-th HTTP attempt
of the call (upstream behaviour is external). State: `t` counts attempts
already made, `a` is the per-URI counter (`attempts`), `i` is `uri_index`,
`d` is the seconds slept just before the next attempt. The indexing
`self.base_uris[uri_index]` (line 161) panics when out of bounds; a success
returns at once (line 167); a text-extraction error propagates at once (line
165); on a retryable failure the loop retries the same URI after a 2-second
sleep while `attempts < max_retries` (lines 188-192), else advances to the
next URI resetting `attempts` (lines 181-184), and errs with `exhaustedMsg`
when no URI is left (line 186). -/
def postLoop (uris : List String) (max_retries : Nat) {ρ : Type}
    (oracle : Nat → AttemptResult ρ) (t a i d : Nat) : PostRun ρ :=
  if _hi : i < uris.length then
    match oracle t with
    | .success v => ⟨.ok v, [⟨i, a, d⟩]⟩
    | .textFailure m => ⟨.err m, [⟨i, a, d⟩]⟩
    | .decodeFailure =>
      if max_retries ≤ a then
        if i < uris.length - 1 then
          let rest := postLoop uris max_retries oracle (t + 1) 0 (i + 1) 0
          ⟨rest.result, ⟨i, a, d⟩ :: rest.trace⟩
        else ⟨.err exhaustedMsg, [⟨i, a, d⟩]⟩
      else
        let rest := postLoop uris max_retries oracle (t + 1) (a + 1) i retryDelaySecs
        ⟨rest.result, ⟨i, a, d⟩ :: rest.trace⟩
    | .networkFailure =>
      if max_retries ≤ a then
        if i < uris.length - 1 then
          let rest := postLoop uris max_retries oracle (t + 1) 0 (i + 1) 0
          ⟨rest.result, ⟨i, a, d⟩ :: rest.trace⟩
        else ⟨.err exhaustedMsg, [⟨i, a, d⟩]⟩
      else
        let rest := postLoop uris max_retries oracle (t + 1) (a + 1) i retryDelaySecs
        ⟨rest.result, ⟨i, a, d⟩ :: rest.trace⟩
  else ⟨.panicked, []⟩
termination_by (uris.length - i) * (max_retries + 1) - min a max_retries
decreasing_by
  all_goals
    (have hx : (uris.length - i) * (max_retries + 1)
        = (uris.length - (i + 1)) * (max_retries + 1) + (max_retries + 1) := by
      have hsub : uris.length - i = (uris.length - (i + 1)) + 1 := by omega
      rw [hsub, Nat.add_mul, Nat.one_mul]
     omega)

/-- The reqwest HTTP client, reduced to its configured timeout. -/
structure ReqwestClient where
  timeout_secs : Nat
deriving DecidableEq, Repr

/-- The `ElectrumX` client struct (`electrumx.rs:130-136`). -/
structure ElectrumX where
  client : ReqwestClient
  network : Network
  base_uris : List String
  max_retries : Nat
deriving DecidableEq, Repr

/-- `ElectrumX::post` (`electrumx.rs:146-195`): the loop starts with zero
prior attempts, `attempts = 0`, `uri_index = 0`, nothing slept yet. -/
def ElectrumX.post {ρ : Type} (ex : ElectrumX)
    (oracle : Nat → AttemptResult ρ) : PostRun ρ :=
  postLoop ex.base_uris ex.max_retries oracle 0 0 0 0

/-- Expected trace entry of the m-th attempt (0-based) of one call with
per-URI budget `max_retries`: URI index `m / (max_retries + 1)`, per-URI
counter `m % (max_retries + 1)`, and a 2-second sleep before every attempt
that is not the first on its URI. -/
def stepRec (max_retries m : Nat) : AttemptRecord :=
  ⟨m / (max_retries + 1), m % (max_retries + 1),
    if m % (max_retries + 1) = 0 then 0 else retryDelaySecs⟩

/-- `ElectrumXBuilder` (`electrumx.rs:197-201`). -/
structure ElectrumXBuilder where
  network : Network
  base_uris : List String
deriving DecidableEq, Repr

/-- `ElectrumXBuilder::build` (`electrumx.rs:218-225`): constructs the
reqwest client with the default 30-second timeout (`client_build_ok` models
whether that external construction succeeds; its `?` propagates the failure)
and returns the client with the default `max_retries = 3` and `base_uris`
exactly as collected — the body performs no validation of `base_uris`. -/
def ElectrumXBuilder.build (b : ElectrumXBuilder) (client_build_ok : Bool) :
    Except String ElectrumX :=
  if client_build_ok then
    .ok ⟨⟨30⟩, b.network, b.base_uris, 3⟩
  else
    .error "reqwest client build failure"

/-- ElectrumX instance used by witnesses: two upstreams, one retry per URI. -/
def demoEx : ElectrumX :=
  ⟨⟨30⟩, Network.bitcoin, ["http://A", "http://B"], 1⟩

/-- Witness oracle: every attempt is a network failure. -/
def allFailOracle : Nat → AttemptResult Unit :=
  fun _ => .networkFailure

/-- Witness oracle: every attempt is a decode failure. -/
def decodeFailOracle : Nat → AttemptResult Unit :=
  fun _ => .decodeFailure

/-- Two attempt outcomes of the same class, as the loop distinguishes them:
equal successes, equal text-extraction failures, and any two retryable
failures (a decode failure and a network failure are interchangeable). -/
def AttemptResult.sameClass {ρ : Type} :
    AttemptResult ρ → AttemptResult ρ → Prop
  | .success v, .success w => v = w
  | .textFailure m, .textFailure m' => m = m'
  | .decodeFailure, .decodeFailure => True
  | .decodeFailure, .networkFailure => True
  | .networkFailure, .decodeFailure => True
  | .networkFailure, .networkFailure => True
  | _, _ => False

/-- Concrete polling stream used by the C3 witness: three clean outputs with
values 2000, 500, 1500. -/
def demoListings : Nat → List Unspent :=
  fun _ => [⟨"a", 0, 2000, []⟩, ⟨"b", 1, 500, []⟩, ⟨"c", 2, 1500, []⟩]

lemma filter_value_orderedInsert (x : Utxo) (l : List Utxo) (v : Nat) :
    (List.orderedInsert valueLe x l).filter (fun u => u.value = v)
      = if x.value = v then x :: l.filter (fun u => u.value = v)
        else l.filter (fun u => u.value = v) := by
  induction l with
  | nil =>
    by_cases hx : x.value = v <;> simp [hx]
  | cons b l ih =>
    by_cases hxb : valueLe x b
    · by_cases hx : x.value = v <;>
        simp [List.orderedInsert, hxb, List.filter_cons, hx]
    · have hlt : b.value < x.value := by
        simp only [valueLe] at hxb
        omega
      by_cases hx : x.value = v
      · have hb : ¬ b.value = v := by omega
        simp [List.orderedInsert, hxb, List.filter_cons, hx, hb, ih]
      · by_cases hb : b.value = v <;>
          simp [List.orderedInsert, hxb, List.filter_cons, hx, hb, ih]

lemma filter_value_insertionSort (l : List Utxo) (v : Nat) :
    (List.insertionSort valueLe l).filter (fun u => u.value = v)
      = l.filter (fun u => u.value = v) := by
  induction l with
  | nil => rfl
  | cons x l ih =>
    by_cases hx : x.value = v <;>
      simp [List.insertionSort, filter_value_orderedInsert, hx, ih, List.filter_cons]

lemma find?_sorted_min (p : Utxo → Bool) (l : List Utxo)
    (hs : List.Sorted valueLe l) (u : Utxo) (hf : l.find? p = some u) :
    ∀ v ∈ l, p v = true → u.value ≤ v.value := by
  induction l with
  | nil => simp at hf
  | cons x l ih =>
    intro v hv hp
    by_cases hpx : p x = true
    · rw [List.find?_cons_of_pos _ hpx] at hf
      cases hf
      rcases List.mem_cons.mp hv with rfl | hv'
      · exact Nat.le_refl _
      · exact List.rel_of_sorted_cons hs v hv'
    · rw [List.find?_cons_of_neg _ (by simpa using hpx)] at hf
      rcases List.mem_cons.mp hv with rfl | hv'
      · exact absurd hp hpx
      · exact ih hs.of_cons hf v hv' hp

/-- C4: for every upstream `listunspent` payload, the address-based unspent
listing is sorted non-decreasing by `value`, carries exactly the upstream
`(txid, vout)` multiset (nothing added, dropped or duplicated), and is stable:
for every value, the equal-value elements appear exactly as in the normalized
upstream list. -/
theorem get_unspent_sorted_stable_multiset (upstream : List Unspent) :
    List.Sorted valueLe (get_unspent_scripthash upstream)
    ∧ List.Perm
        ((get_unspent_scripthash upstream).map (fun u => (u.txid, u.vout)))
        (upstream.map (fun w => (w.txid, w.vout)))
    ∧ ∀ v, (get_unspent_scripthash upstream).filter (fun u => u.value = v)
        = (upstream.map Unspent.toUtxo).filter (fun u => u.value = v) := by
  refine ⟨List.sorted_insertionSort valueLe _, ?_,
    fun v => filter_value_insertionSort _ v⟩
  have h :=
    (List.perm_insertionSort valueLe (upstream.map Unspent.toUtxo)).map
      (fun u : Utxo => (u.txid, u.vout))
  simpa [List.map_map, Function.comp, Unspent.toUtxo] using h

/-- C3: whenever `wait_until_utxo` returns a `Utxo`, that `Utxo` has empty
`atomicals` and `value ≥ satoshis`; moreover on the iteration where the poll
succeeds, the returned `Utxo` is the first match of the ascending-by-value
listing, hence the smallest sufficient one. -/
theorem wait_until_utxo_spendable_min (listings : Nat → List Unspent)
    (satoshis start fuel : Nat) (u : Utxo)
    (h : wait_until_utxo listings satoshis start fuel = some u) :
    u.atomicals = [] ∧ satoshis ≤ u.value
    ∧ ∃ k,
        (get_unspent_scripthash (listings k)).find? (spendable satoshis) = some u
        ∧ ∀ v ∈ get_unspent_scripthash (listings k),
            spendable satoshis v = true → u.value ≤ v.value := by
  induction fuel generalizing start with
  | zero => simp [wait_until_utxo] at h
  | succ fuel ih =>
    rw [wait_until_utxo] at h
    cases hf : (get_unspent_scripthash (listings start)).find? (spendable satoshis) with
    | some u' =>
      rw [hf] at h
      cases h
      have hp := List.find?_some hf
      simp [spendable, Bool.and_eq_true] at hp
      refine ⟨hp.1, hp.2, start, hf, ?_⟩
      exact find?_sorted_min (spendable satoshis) _
        (List.sorted_insertionSort valueLe _) u hf
    | none =>
      rw [hf] at h
      exact ih (start + 1) h

/-- C3 witness: on `demoListings` with a 1000-satoshi minimum, the poll
returns the 1500-value output — the smallest sufficient clean one. -/
theorem wait_until_utxo_spendable_min_witness :
    wait_until_utxo demoListings 1000 0 1 = some ⟨"c", 2, 1500, []⟩
    ∧ ((⟨"c", 2, 1500, []⟩ : Utxo).atomicals = []
      ∧ 1000 ≤ (⟨"c", 2, 1500, []⟩ : Utxo).value
      ∧ ∃ k,
          (get_unspent_scripthash (demoListings k)).find? (spendable 1000)
            = some ⟨"c", 2, 1500, []⟩
          ∧ ∀ v ∈ get_unspent_scripthash (demoListings k),
              spendable 1000 v = true → (⟨"c", 2, 1500, []⟩ : Utxo).value ≤ v.value) :=
  ⟨by decide, wait_until_utxo_spendable_min demoListings 1000 0 1 _ (by decide)⟩

lemma stepRec_eq (R i a d : Nat) (ha : a ≤ R)
    (hd : d = if a = 0 then 0 else retryDelaySecs) :
    stepRec R (i * (R + 1) + a) = ⟨i, a, d⟩ := by
  have h1 : (i * (R + 1) + a) / (R + 1) = i := by
    rw [Nat.mul_comm i (R + 1), Nat.mul_add_div (Nat.succ_pos R)]
    simp [Nat.div_eq_of_lt (by omega : a < R + 1)]
  have h2 : (i * (R + 1) + a) % (R + 1) = a := by
    rw [Nat.mul_comm i (R + 1), Nat.mul_add_mod]
    exact Nat.mod_eq_of_lt (by omega)
  simp [stepRec, h1, h2, hd]

lemma postLoop_success_step {ρ : Type} (uris : List String) (R : Nat)
    (oracle : Nat → AttemptResult ρ) (t a i d : Nat) (v : ρ)
    (hi : i < uris.length) (hx : oracle t = .success v) :
    postLoop uris R oracle t a i d = ⟨.ok v, [⟨i, a, d⟩]⟩ := by
  rw [postLoop, dif_pos hi, hx]

lemma postLoop_text_step {ρ : Type} (uris : List String) (R : Nat)
    (oracle : Nat → AttemptResult ρ) (t a i d : Nat) (m : String)
    (hi : i < uris.length) (hx : oracle t = .textFailure m) :
    postLoop uris R oracle t a i d = ⟨.err m, [⟨i, a, d⟩]⟩ := by
  rw [postLoop, dif_pos hi, hx]

lemma postLoop_fail_step {ρ : Type} (uris : List String) (R : Nat)
    (oracle : Nat → AttemptResult ρ) (t a i d : Nat)
    (hi : i < uris.length) (hfail : (oracle t).isRetryable = true) :
    postLoop uris R oracle t a i d =
      if R ≤ a then
        if i < uris.length - 1 then
          ⟨(postLoop uris R oracle (t + 1) 0 (i + 1) 0).result,
            ⟨i, a, d⟩ :: (postLoop uris R oracle (t + 1) 0 (i + 1) 0).trace⟩
        else ⟨.err exhaustedMsg, [⟨i, a, d⟩]⟩
      else
        ⟨(postLoop uris R oracle (t + 1) (a + 1) i retryDelaySecs).result,
          ⟨i, a, d⟩ :: (postLoop uris R oracle (t + 1) (a + 1) i retryDelaySecs).trace⟩ := by
  cases hx : oracle t with
  | success v => rw [hx] at hfail; simp [AttemptResult.isRetryable] at hfail
  | textFailure m => rw [hx] at hfail; simp [AttemptResult.isRetryable] at hfail
  | decodeFailure => rw [postLoop, dif_pos hi, hx]
  | networkFailure => rw [postLoop, dif_pos hi, hx]

lemma postLoop_oob_step {ρ : Type} (uris : List String) (R : Nat)
    (oracle : Nat → AttemptResult ρ) (t a i d : Nat)
    (hi : ¬ i < uris.length) :
    postLoop uris R oracle t a i d = ⟨.panicked, []⟩ := by
  rw [postLoop, dif_neg hi]

lemma postLoop_trace_len_le {ρ : Type} (uris : List String) (R : Nat)
    (oracle : Nat → AttemptResult ρ) :
    ∀ t a i d, a ≤ R →
      (postLoop uris R oracle t a i d).trace.length
        ≤ (uris.length - i) * (R + 1) - a := by
  intro t a i d
  induction t, a, i, d using postLoop.induct uris R oracle with
  | case1 t a i d hi v heq =>
    intro ha
    rw [postLoop_success_step uris R oracle t a i d v hi heq]
    have hx : 1 * (R + 1) ≤ (uris.length - i) * (R + 1) :=
      Nat.mul_le_mul_right _ (by omega)
    simp
    omega
  | case2 t a i d hi m heq =>
    intro ha
    rw [postLoop_text_step uris R oracle t a i d m hi heq]
    have hx : 1 * (R + 1) ≤ (uris.length - i) * (R + 1) :=
      Nat.mul_le_mul_right _ (by omega)
    simp
    omega
  | case3 t a i d hi heq hra hil ih =>
    intro ha
    rw [postLoop_fail_step uris R oracle t a i d hi (by rw [heq]; rfl),
      if_pos hra, if_pos hil]
    have ih' := ih (by omega)
    have hx : (uris.length - i) * (R + 1)
        = (uris.length - (i + 1)) * (R + 1) + (R + 1) := by
      have hsub : uris.length - i = (uris.length - (i + 1)) + 1 := by omega
      rw [hsub, Nat.add_mul, Nat.one_mul]
    simp only [List.length_cons]
    omega
  | case4 t a i d hi heq hra hil =>
    intro ha
    rw [postLoop_fail_step uris R oracle t a i d hi (by rw [heq]; rfl),
      if_pos hra, if_neg hil]
    have hx : 1 * (R + 1) ≤ (uris.length - i) * (R + 1) :=
      Nat.mul_le_mul_right _ (by omega)
    simp
    omega
  | case5 t a i d hi heq hra ih =>
    intro ha
    rw [postLoop_fail_step uris R oracle t a i d hi (by rw [heq]; rfl),
      if_neg hra]
    have ih' := ih (by omega)
    have hx : 1 * (R + 1) ≤ (uris.length - i) * (R + 1) :=
      Nat.mul_le_mul_right _ (by omega)
    simp only [List.length_cons]
    omega
  | case6 t a i d hi heq hra hil ih =>
    intro ha
    rw [postLoop_fail_step uris R oracle t a i d hi (by rw [heq]; rfl),
      if_pos hra, if_pos hil]
    have ih' := ih (by omega)
    have hx : (uris.length - i) * (R + 1)
        = (uris.length - (i + 1)) * (R + 1) + (R + 1) := by
      have hsub : uris.length - i = (uris.length - (i + 1)) + 1 := by omega
      rw [hsub, Nat.add_mul, Nat.one_mul]
    simp only [List.length_cons]
    omega
  | case7 t a i d hi heq hra hil =>
    intro ha
    rw [postLoop_fail_step uris R oracle t a i d hi (by rw [heq]; rfl),
      if_pos hra, if_neg hil]
    have hx : 1 * (R + 1) ≤ (uris.length - i) * (R + 1) :=
      Nat.mul_le_mul_right _ (by omega)
    simp
    omega
  | case8 t a i d hi heq hra ih =>
    intro ha
    rw [postLoop_fail_step uris R oracle t a i d hi (by rw [heq]; rfl),
      if_neg hra]
    have ih' := ih (by omega)
    have hx : 1 * (R + 1) ≤ (uris.length - i) * (R + 1) :=
      Nat.mul_le_mul_right _ (by omega)
    simp only [List.length_cons]
    omega
  | case9 t a i d hi =>
    intro ha
    rw [postLoop_oob_step uris R oracle t a i d hi]
    simp

lemma postLoop_allFail {ρ : Type} (uris : List String) (R : Nat)
    (oracle : Nat → AttemptResult ρ)
    (hall : ∀ k, (oracle k).isRetryable = true) :
    ∀ t a i d, a ≤ R → i < uris.length →
      (postLoop uris R oracle t a i d).result = .err exhaustedMsg
      ∧ (postLoop uris R oracle t a i d).trace.length
          = (uris.length - i) * (R + 1) - a := by
  intro t a i d
  induction t, a, i, d using postLoop.induct uris R oracle with
  | case1 t a i d hi v heq =>
    intro ha hil
    have := hall t
    rw [heq] at this
    simp [AttemptResult.isRetryable] at this
  | case2 t a i d hi m heq =>
    intro ha hil
    have := hall t
    rw [heq] at this
    simp [AttemptResult.isRetryable] at this
  | case3 t a i d hi heq hra hil ih =>
    intro ha _
    rw [postLoop_fail_step uris R oracle t a i d hi (by rw [heq]; rfl),
      if_pos hra, if_pos hil]
    have ih' := ih (by omega) (by omega)
    have hx : (uris.length - i) * (R + 1)
        = (uris.length - (i + 1)) * (R + 1) + (R + 1) := by
      have hsub : uris.length - i = (uris.length - (i + 1)) + 1 := by omega
      rw [hsub, Nat.add_mul, Nat.one_mul]
    refine ⟨ih'.1, ?_⟩
    simp only [List.length_cons]
    omega
  | case4 t a i d hi heq hra hil =>
    intro ha _
    rw [postLoop_fail_step uris R oracle t a i d hi (by rw [heq]; rfl),
      if_pos hra, if_neg hil]
    have hone : uris.length - i = 1 := by omega
    have hx : (uris.length - i) * (R + 1) = R + 1 := by
      rw [hone, Nat.one_mul]
    refine ⟨rfl, ?_⟩
    simp
    omega
  | case5 t a i d hi heq hra ih =>
    intro ha _
    rw [postLoop_fail_step uris R oracle t a i d hi (by rw [heq]; rfl),
      if_neg hra]
    have ih' := ih (by omega) (by omega)
    have hx : 1 * (R + 1) ≤ (uris.length - i) * (R + 1) :=
      Nat.mul_le_mul_right _ (by omega)
    refine ⟨ih'.1, ?_⟩
    simp only [List.length_cons]
    omega
  | case6 t a i d hi heq hra hil ih =>
    intro ha _
    rw [postLoop_fail_step uris R oracle t a i d hi (by rw [heq]; rfl),
      if_pos hra, if_pos hil]
    have ih' := ih (by omega) (by omega)
    have hx : (uris.length - i) * (R + 1)
        = (uris.length - (i + 1)) * (R + 1) + (R + 1) := by
      have hsub : uris.length - i = (uris.length - (i + 1)) + 1 := by omega
      rw [hsub, Nat.add_mul, Nat.one_mul]
    refine ⟨ih'.1, ?_⟩
    simp only [List.length_cons]
    omega
  | case7 t a i d hi heq hra hil =>
    intro ha _
    rw [postLoop_fail_step uris R oracle t a i d hi (by rw [heq]; rfl),
      if_pos hra, if_neg hil]
    have hone : uris.length - i = 1 := by omega
    have hx : (uris.length - i) * (R + 1) = R + 1 := by
      rw [hone, Nat.one_mul]
    refine ⟨rfl, ?_⟩
    simp
    omega
  | case8 t a i d hi heq hra ih =>
    intro ha _
    rw [postLoop_fail_step uris R oracle t a i d hi (by rw [heq]; rfl),
      if_neg hra]
    have ih' := ih (by omega) (by omega)
    have hx : 1 * (R + 1) ≤ (uris.length - i) * (R + 1) :=
      Nat.mul_le_mul_right _ (by omega)
    refine ⟨ih'.1, ?_⟩
    simp only [List.length_cons]
    omega
  | case9 t a i d hi =>
    intro ha hil
    exact absurd hil hi

lemma postLoop_trace_shape {ρ : Type} (uris : List String) (R : Nat)
    (oracle : Nat → AttemptResult ρ) :
    ∀ t a i d, a ≤ R → t = i * (R + 1) + a →
      d = (if a = 0 then 0 else retryDelaySecs) →
      (postLoop uris R oracle t a i d).trace
        = (List.range' t (postLoop uris R oracle t a i d).trace.length).map
            (stepRec R) := by
  intro t a i d
  induction t, a, i, d using postLoop.induct uris R oracle with
  | case1 t a i d hi v heq =>
    intro ha ht hd
    rw [postLoop_success_step uris R oracle t a i d v hi heq]
    simp only [List.length_cons, List.length_nil, Nat.zero_add, List.range'_one,
      List.map_cons, List.map_nil]
    rw [ht, stepRec_eq R i a d ha hd]
  | case2 t a i d hi m heq =>
    intro ha ht hd
    rw [postLoop_text_step uris R oracle t a i d m hi heq]
    simp only [List.length_cons, List.length_nil, Nat.zero_add, List.range'_one,
      List.map_cons, List.map_nil]
    rw [ht, stepRec_eq R i a d ha hd]
  | case3 t a i d hi heq hra hil ih =>
    intro ha ht hd
    have hx : (i + 1) * (R + 1) = i * (R + 1) + (R + 1) := by
      rw [Nat.add_mul, Nat.one_mul]
    have ih' := ih (by omega) (by omega) (by simp)
    rw [postLoop_fail_step uris R oracle t a i d hi (by rw [heq]; rfl),
      if_pos hra, if_pos hil]
    simp only [List.length_cons]
    rw [List.range'_succ, List.map_cons, ht, stepRec_eq R i a d ha hd]
    rw [← ht]
    exact congrArg _ ih'
  | case4 t a i d hi heq hra hil =>
    intro ha ht hd
    rw [postLoop_fail_step uris R oracle t a i d hi (by rw [heq]; rfl),
      if_pos hra, if_neg hil]
    simp only [List.length_cons, List.length_nil, Nat.zero_add, List.range'_one,
      List.map_cons, List.map_nil]
    rw [ht, stepRec_eq R i a d ha hd]
  | case5 t a i d hi heq hra ih =>
    intro ha ht hd
    have ih' := ih (by omega) (by omega) (by simp)
    rw [postLoop_fail_step uris R oracle t a i d hi (by rw [heq]; rfl),
      if_neg hra]
    simp only [List.length_cons]
    rw [List.range'_succ, List.map_cons, ht, stepRec_eq R i a d ha hd]
    rw [← ht]
    exact congrArg _ ih'
  | case6 t a i d hi heq hra hil ih =>
    intro ha ht hd
    have hx : (i + 1) * (R + 1) = i * (R + 1) + (R + 1) := by
      rw [Nat.add_mul, Nat.one_mul]
    have ih' := ih (by omega) (by omega) (by simp)
    rw [postLoop_fail_step uris R oracle t a i d hi (by rw [heq]; rfl),
      if_pos hra, if_pos hil]
    simp only [List.length_cons]
    rw [List.range'_succ, List.map_cons, ht, stepRec_eq R i a d ha hd]
    rw [← ht]
    exact congrArg _ ih'
  | case7 t a i d hi heq hra hil =>
    intro ha ht hd
    rw [postLoop_fail_step uris R oracle t a i d hi (by rw [heq]; rfl),
      if_pos hra, if_neg hil]
    simp only [List.length_cons, List.length_nil, Nat.zero_add, List.range'_one,
      List.map_cons, List.map_nil]
    rw [ht, stepRec_eq R i a d ha hd]
  | case8 t a i d hi heq hra ih =>
    intro ha ht hd
    have ih' := ih (by omega) (by omega) (by simp)
    rw [postLoop_fail_step uris R oracle t a i d hi (by rw [heq]; rfl),
      if_neg hra]
    simp only [List.length_cons]
    rw [List.range'_succ, List.map_cons, ht, stepRec_eq R i a d ha hd]
    rw [← ht]
    exact congrArg _ ih'
  | case9 t a i d hi =>
    intro ha ht hd
    rw [postLoop_oob_step uris R oracle t a i d hi]
    simp

lemma postLoop_success_reach {ρ : Type} (uris : List String) (R : Nat)
    (oracle : Nat → AttemptResult ρ) (v : ρ) :
    ∀ t a i d n, a ≤ R → i < uris.length →
      n < (uris.length - i) * (R + 1) - a →
      (∀ k, k < n → (oracle (t + k)).isRetryable = true) →
      oracle (t + n) = .success v →
      (postLoop uris R oracle t a i d).result = .ok v
      ∧ (postLoop uris R oracle t a i d).trace.length = n + 1 := by
  intro t a i d
  induction t, a, i, d using postLoop.induct uris R oracle with
  | case1 t a i d hi w heq =>
    intro n ha hil hn hk hs
    match n with
    | 0 =>
      rw [Nat.add_zero] at hs
      rw [heq] at hs
      cases hs
      rw [postLoop_success_step uris R oracle t a i d v hi heq]
      exact ⟨rfl, rfl⟩
    | n' + 1 =>
      have h0 := hk 0 (by omega)
      rw [Nat.add_zero, heq] at h0
      simp [AttemptResult.isRetryable] at h0
  | case2 t a i d hi m heq =>
    intro n ha hil hn hk hs
    match n with
    | 0 =>
      rw [Nat.add_zero, heq] at hs
      cases hs
    | n' + 1 =>
      have h0 := hk 0 (by omega)
      rw [Nat.add_zero, heq] at h0
      simp [AttemptResult.isRetryable] at h0
  | case3 t a i d hi heq hra hil ih =>
    intro n ha hil' hn hk hs
    match n with
    | 0 =>
      rw [Nat.add_zero, heq] at hs
      cases hs
    | n' + 1 =>
      have hx : (uris.length - i) * (R + 1)
          = (uris.length - (i + 1)) * (R + 1) + (R + 1) := by
        have hsub : uris.length - i = (uris.length - (i + 1)) + 1 := by omega
        rw [hsub, Nat.add_mul, Nat.one_mul]
      have hk' : ∀ k, k < n' → (oracle (t + 1 + k)).isRetryable = true := by
        intro k hkn
        have h' := hk (k + 1) (by omega)
        rwa [show t + (k + 1) = t + 1 + k by omega] at h'
      have hs' : oracle (t + 1 + n') = .success v := by
        rwa [show t + (n' + 1) = t + 1 + n' by omega] at hs
      have ih' := ih n' (by omega) (by omega) (by omega) hk' hs'
      rw [postLoop_fail_step uris R oracle t a i d hi (by rw [heq]; rfl),
        if_pos hra, if_pos hil]
      refine ⟨ih'.1, ?_⟩
      simp only [List.length_cons]
      omega
  | case4 t a i d hi heq hra hil =>
    intro n ha hil' hn hk hs
    have hone : uris.length - i = 1 := by omega
    have hx : (uris.length - i) * (R + 1) = R + 1 := by
      rw [hone, Nat.one_mul]
    match n with
    | 0 =>
      rw [Nat.add_zero, heq] at hs
      cases hs
    | n' + 1 =>
      omega
  | case5 t a i d hi heq hra ih =>
    intro n ha hil' hn hk hs
    match n with
    | 0 =>
      rw [Nat.add_zero, heq] at hs
      cases hs
    | n' + 1 =>
      have hx : 1 * (R + 1) ≤ (uris.length - i) * (R + 1) :=
        Nat.mul_le_mul_right _ (by omega)
      have hk' : ∀ k, k < n' → (oracle (t + 1 + k)).isRetryable = true := by
        intro k hkn
        have h' := hk (k + 1) (by omega)
        rwa [show t + (k + 1) = t + 1 + k by omega] at h'
      have hs' : oracle (t + 1 + n') = .success v := by
        rwa [show t + (n' + 1) = t + 1 + n' by omega] at hs
      have ih' := ih n' (by omega) (by omega) (by omega) hk' hs'
      rw [postLoop_fail_step uris R oracle t a i d hi (by rw [heq]; rfl),
        if_neg hra]
      refine ⟨ih'.1, ?_⟩
      simp only [List.length_cons]
      omega
  | case6 t a i d hi heq hra hil ih =>
    intro n ha hil' hn hk hs
    match n with
    | 0 =>
      rw [Nat.add_zero, heq] at hs
      cases hs
    | n' + 1 =>
      have hx : (uris.length - i) * (R + 1)
          = (uris.length - (i + 1)) * (R + 1) + (R + 1) := by
        have hsub : uris.length - i = (uris.length - (i + 1)) + 1 := by omega
        rw [hsub, Nat.add_mul, Nat.one_mul]
      have hk' : ∀ k, k < n' → (oracle (t + 1 + k)).isRetryable = true := by
        intro k hkn
        have h' := hk (k + 1) (by omega)
        rwa [show t + (k + 1) = t + 1 + k by omega] at h'
      have hs' : oracle (t + 1 + n') = .success v := by
        rwa [show t + (n' + 1) = t + 1 + n' by omega] at hs
      have ih' := ih n' (by omega) (by omega) (by omega) hk' hs'
      rw [postLoop_fail_step uris R oracle t a i d hi (by rw [heq]; rfl),
        if_pos hra, if_pos hil]
      refine ⟨ih'.1, ?_⟩
      simp only [List.length_cons]
      omega
  | case7 t a i d hi heq hra hil =>
    intro n ha hil' hn hk hs
    have hone : uris.length - i = 1 := by omega
    have hx : (uris.length - i) * (R + 1) = R + 1 := by
      rw [hone, Nat.one_mul]
    match n with
    | 0 =>
      rw [Nat.add_zero, heq] at hs
      cases hs
    | n' + 1 =>
      omega
  | case8 t a i d hi heq hra ih =>
    intro n ha hil' hn hk hs
    match n with
    | 0 =>
      rw [Nat.add_zero, heq] at hs
      cases hs
    | n' + 1 =>
      have hx : 1 * (R + 1) ≤ (uris.length - i) * (R + 1) :=
        Nat.mul_le_mul_right _ (by omega)
      have hk' : ∀ k, k < n' → (oracle (t + 1 + k)).isRetryable = true := by
        intro k hkn
        have h' := hk (k + 1) (by omega)
        rwa [show t + (k + 1) = t + 1 + k by omega] at h'
      have hs' : oracle (t + 1 + n') = .success v := by
        rwa [show t + (n' + 1) = t + 1 + n' by omega] at hs
      have ih' := ih n' (by omega) (by omega) (by omega) hk' hs'
      rw [postLoop_fail_step uris R oracle t a i d hi (by rw [heq]; rfl),
        if_neg hra]
      refine ⟨ih'.1, ?_⟩
      simp only [List.length_cons]
      omega
  | case9 t a i d hi =>
    intro n ha hil hn hk hs
    exact absurd hil hi

lemma postLoop_no_panic {ρ : Type} (uris : List String) (R : Nat)
    (oracle : Nat → AttemptResult ρ) :
    ∀ t a i d, i < uris.length →
      (postLoop uris R oracle t a i d).result ≠ .panicked
      ∧ ∀ e ∈ (postLoop uris R oracle t a i d).trace,
          e.uri_index < uris.length := by
  intro t a i d
  induction t, a, i, d using postLoop.induct uris R oracle with
  | case1 t a i d hi v heq =>
    intro hil
    rw [postLoop_success_step uris R oracle t a i d v hi heq]
    constructor
    · intro h
      cases h
    · intro e he
      simp at he
      rw [he]
      exact hil
  | case2 t a i d hi m heq =>
    intro hil
    rw [postLoop_text_step uris R oracle t a i d m hi heq]
    constructor
    · intro h
      cases h
    · intro e he
      simp at he
      rw [he]
      exact hil
  | case3 t a i d hi heq hra hil ih =>
    intro hil'
    have ih' := ih (by omega)
    rw [postLoop_fail_step uris R oracle t a i d hi (by rw [heq]; rfl),
      if_pos hra, if_pos hil]
    refine ⟨ih'.1, ?_⟩
    intro e he
    rcases List.mem_cons.mp he with rfl | he'
    · exact hil'
    · exact ih'.2 e he'
  | case4 t a i d hi heq hra hil =>
    intro hil'
    rw [postLoop_fail_step uris R oracle t a i d hi (by rw [heq]; rfl),
      if_pos hra, if_neg hil]
    constructor
    · intro h
      cases h
    · intro e he
      simp at he
      rw [he]
      exact hil'
  | case5 t a i d hi heq hra ih =>
    intro hil'
    have ih' := ih (by omega)
    rw [postLoop_fail_step uris R oracle t a i d hi (by rw [heq]; rfl),
      if_neg hra]
    refine ⟨ih'.1, ?_⟩
    intro e he
    rcases List.mem_cons.mp he with rfl | he'
    · exact hil'
    · exact ih'.2 e he'
  | case6 t a i d hi heq hra hil ih =>
    intro hil'
    have ih' := ih (by omega)
    rw [postLoop_fail_step uris R oracle t a i d hi (by rw [heq]; rfl),
      if_pos hra, if_pos hil]
    refine ⟨ih'.1, ?_⟩
    intro e he
    rcases List.mem_cons.mp he with rfl | he'
    · exact hil'
    · exact ih'.2 e he'
  | case7 t a i d hi heq hra hil =>
    intro hil'
    rw [postLoop_fail_step uris R oracle t a i d hi (by rw [heq]; rfl),
      if_pos hra, if_neg hil]
    constructor
    · intro h
      cases h
    · intro e he
      simp at he
      rw [he]
      exact hil'
  | case8 t a i d hi heq hra ih =>
    intro hil'
    have ih' := ih (by omega)
    rw [postLoop_fail_step uris R oracle t a i d hi (by rw [heq]; rfl),
      if_neg hra]
    refine ⟨ih'.1, ?_⟩
    intro e he
    rcases List.mem_cons.mp he with rfl | he'
    · exact hil'
    · exact ih'.2 e he'
  | case9 t a i d hi =>
    intro hil
    exact absurd hil hi

lemma postLoop_congr_sameClass {ρ : Type} (uris : List String) (R : Nat)
    (o1 o2 : Nat → AttemptResult ρ)
    (h : ∀ k, (o1 k).sameClass (o2 k)) :
    ∀ t a i d, postLoop uris R o1 t a i d = postLoop uris R o2 t a i d := by
  intro t a i d
  induction t, a, i, d using postLoop.induct uris R o1 with
  | case1 t a i d hi v heq =>
    have hc := h t
    rw [heq] at hc
    cases ho2 : o2 t <;> rw [ho2] at hc <;>
      simp [AttemptResult.sameClass] at hc
    rw [postLoop_success_step uris R o1 t a i d v hi heq,
      postLoop_success_step uris R o2 t a i d _ hi ho2, hc]
  | case2 t a i d hi m heq =>
    have hc := h t
    rw [heq] at hc
    cases ho2 : o2 t <;> rw [ho2] at hc <;>
      simp [AttemptResult.sameClass] at hc
    rw [postLoop_text_step uris R o1 t a i d m hi heq,
      postLoop_text_step uris R o2 t a i d _ hi ho2, hc]
  | case3 t a i d hi heq hra hil ih =>
    have hc := h t
    rw [heq] at hc
    have h2 : (o2 t).isRetryable = true := by
      cases ho2 : o2 t <;> rw [ho2] at hc <;>
        simp [AttemptResult.sameClass] at hc <;> rfl
    rw [postLoop_fail_step uris R o1 t a i d hi (by rw [heq]; rfl),
      postLoop_fail_step uris R o2 t a i d hi h2, if_pos hra, if_pos hil,
      if_pos hra, if_pos hil, ih]
  | case4 t a i d hi heq hra hil =>
    have hc := h t
    rw [heq] at hc
    have h2 : (o2 t).isRetryable = true := by
      cases ho2 : o2 t <;> rw [ho2] at hc <;>
        simp [AttemptResult.sameClass] at hc <;> rfl
    rw [postLoop_fail_step uris R o1 t a i d hi (by rw [heq]; rfl),
      postLoop_fail_step uris R o2 t a i d hi h2, if_pos hra, if_neg hil,
      if_pos hra, if_neg hil]
  | case5 t a i d hi heq hra ih =>
    have hc := h t
    rw [heq] at hc
    have h2 : (o2 t).isRetryable = true := by
      cases ho2 : o2 t <;> rw [ho2] at hc <;>
        simp [AttemptResult.sameClass] at hc <;> rfl
    rw [postLoop_fail_step uris R o1 t a i d hi (by rw [heq]; rfl),
      postLoop_fail_step uris R o2 t a i d hi h2, if_neg hra, if_neg hra, ih]
  | case6 t a i d hi heq hra hil ih =>
    have hc := h t
    rw [heq] at hc
    have h2 : (o2 t).isRetryable = true := by
      cases ho2 : o2 t <;> rw [ho2] at hc <;>
        simp [AttemptResult.sameClass] at hc <;> rfl
    rw [postLoop_fail_step uris R o1 t a i d hi (by rw [heq]; rfl),
      postLoop_fail_step uris R o2 t a i d hi h2, if_pos hra, if_pos hil,
      if_pos hra, if_pos hil, ih]
  | case7 t a i d hi heq hra hil =>
    have hc := h t
    rw [heq] at hc
    have h2 : (o2 t).isRetryable = true := by
      cases ho2 : o2 t <;> rw [ho2] at hc <;>
        simp [AttemptResult.sameClass] at hc <;> rfl
    rw [postLoop_fail_step uris R o1 t a i d hi (by rw [heq]; rfl),
      postLoop_fail_step uris R o2 t a i d hi h2, if_pos hra, if_neg hil,
      if_pos hra, if_neg hil]
  | case8 t a i d hi heq hra ih =>
    have hc := h t
    rw [heq] at hc
    have h2 : (o2 t).isRetryable = true := by
      cases ho2 : o2 t <;> rw [ho2] at hc <;>
        simp [AttemptResult.sameClass] at hc <;> rfl
    rw [postLoop_fail_step uris R o1 t a i d hi (by rw [heq]; rfl),
      postLoop_fail_step uris R o2 t a i d hi h2, if_neg hra, if_neg hra, ih]
  | case9 t a i d hi =>
    rw [postLoop_oob_step uris R o1 t a i d hi,
      postLoop_oob_step uris R o2 t a i d hi]

/-- C1: with non-empty `base_uris` and `max_retries = R`, one `post` call
tries the URIs in index order starting at index 0: the m-th attempt hits URI
index `m / (R + 1)` with per-URI counter `m % (R + 1)` (so each URI is
attempted up to `R + 1` times before the engine advances and the counter
resets to 0), and every attempt other than the first on its URI is preceded
by exactly the fixed 2-second retry delay; moreover if attempt `n` is the
first to yield a decodable response, its decoded value is returned
immediately: the result is that value and no attempt beyond `n` is made. -/
theorem post_failover_order {ρ : Type} (ex : ElectrumX)
    (oracle : Nat → AttemptResult ρ) (h : ex.base_uris ≠ []) :
    (ex.post oracle).trace
      = (List.range (ex.post oracle).trace.length).map (stepRec ex.max_retries)
    ∧ ∀ n v, n < ex.base_uris.length * (ex.max_retries + 1) →
        (∀ k, k < n → (oracle k).isRetryable = true) →
        oracle n = .success v →
        (ex.post oracle).result = .ok v
        ∧ (ex.post oracle).trace.length = n + 1 := by
  constructor
  · have hts := postLoop_trace_shape ex.base_uris ex.max_retries oracle 0 0 0 0
      (Nat.zero_le _) (by simp) (by simp)
    rw [List.range_eq_range']
    exact hts
  · intro n v hn hk hs
    have hL : 0 < ex.base_uris.length := List.length_pos.mpr h
    exact postLoop_success_reach ex.base_uris ex.max_retries oracle v 0 0 0 0 n
      (Nat.zero_le _) hL (by simpa using hn)
      (by intro k hkk; simpa using hk k hkk) (by simpa using hs)

/-- C1 witness: the failover-order theorem applied to a concrete client with
two URIs and `max_retries = 1` under an all-failing oracle. -/
theorem post_failover_order_witness :
    demoEx.base_uris ≠ []
    ∧ ((demoEx.post allFailOracle).trace
        = (List.range (demoEx.post allFailOracle).trace.length).map
            (stepRec demoEx.max_retries)
      ∧ ∀ n v, n < demoEx.base_uris.length * (demoEx.max_retries + 1) →
          (∀ k, k < n → (allFailOracle k).isRetryable = true) →
          allFailOracle n = .success v →
          (demoEx.post allFailOracle).result = .ok v
          ∧ (demoEx.post allFailOracle).trace.length = n + 1) :=
  ⟨by decide, post_failover_order demoEx allFailOracle (by decide)⟩

/-- C2: with non-empty `base_uris` of length N and `max_retries = R`, one
`post` call makes at most `N * (R + 1)` HTTP attempts, and exactly
`N * (R + 1)` when every attempt fails with a retryable error. -/
theorem post_attempt_budget {ρ : Type} (ex : ElectrumX)
    (oracle : Nat → AttemptResult ρ) (h : ex.base_uris ≠ []) :
    (ex.post oracle).trace.length
      ≤ ex.base_uris.length * (ex.max_retries + 1)
    ∧ ((∀ k, (oracle k).isRetryable = true) →
        (ex.post oracle).trace.length
          = ex.base_uris.length * (ex.max_retries + 1)) := by
  constructor
  · have hb := postLoop_trace_len_le ex.base_uris ex.max_retries oracle 0 0 0 0
      (Nat.zero_le _)
    simpa using hb
  · intro hall
    have hL : 0 < ex.base_uris.length := List.length_pos.mpr h
    have he := (postLoop_allFail ex.base_uris ex.max_retries oracle hall 0 0 0 0
      (Nat.zero_le _) hL).2
    simpa using he

/-- C2 witness: the attempt-budget theorem applied to a concrete client with
two URIs and `max_retries = 1` under an all-failing oracle. -/
theorem post_attempt_budget_witness :
    demoEx.base_uris ≠ []
    ∧ ((demoEx.post allFailOracle).trace.length
        ≤ demoEx.base_uris.length * (demoEx.max_retries + 1)
      ∧ ((∀ k, (allFailOracle k).isRetryable = true) →
          (demoEx.post allFailOracle).trace.length
            = demoEx.base_uris.length * (demoEx.max_retries + 1))) :=
  ⟨by decide, post_attempt_budget demoEx allFailOracle (by decide)⟩

/-- C5: a decode failure is handled exactly like a network failure: replacing
the outcome of any attempt by a same-class outcome (in particular a decode
failure by a network failure, or the reverse) leaves the whole run — result
and attempt trace — unchanged. Hence a decode error is never surfaced to the
caller by itself; it drives the retry/rotation loop under the same attempt
budget as a network failure. -/
theorem post_decode_error_retryable {ρ : Type} (ex : ElectrumX)
    (o1 o2 : Nat → AttemptResult ρ)
    (h : ∀ k, (o1 k).sameClass (o2 k)) :
    ex.post o1 = ex.post o2 :=
  postLoop_congr_sameClass ex.base_uris ex.max_retries o1 o2 h 0 0 0 0

/-- C5 witness: an all-decode-failure oracle and an all-network-failure
oracle produce identical runs on a concrete client. -/
theorem post_decode_error_retryable_witness :
    (∀ k, (decodeFailOracle k).sameClass (allFailOracle k))
    ∧ demoEx.post decodeFailOracle = demoEx.post allFailOracle :=
  ⟨fun _ => trivial,
    post_decode_error_retryable demoEx decodeFailOracle allFailOracle
      (fun _ => trivial)⟩

/-- C9 counterexample: with `base_uris = ["http://A"]` and `max_retries = 0`
and every attempt failing, the call fails with the fixed message
"All URIs exhausted, still failed", which does not contain the last (and
only) URI tried — so the error's message does not identify the last URI,
refuting the claim as stated. -/
theorem post_exhaustion_message_counterexample :
    (ElectrumX.post ⟨⟨30⟩, Network.bitcoin, ["http://A"], 0⟩
        allFailOracle).result = .err exhaustedMsg
    ∧ containsSub "http://A".data exhaustedMsg.data = false := by
  constructor
  · exact (postLoop_allFail ["http://A"] 0 allFailOracle (fun _ => rfl) 0 0 0 0
      (Nat.zero_le _) (by decide)).1
  · decide

/-- C9 (amended): when all URIs and all retries are exhausted, the call fails
with the exhaustion error whose message is the fixed string
"All URIs exhausted, still failed"; the message does not identify the last
URI tried. -/
theorem post_exhaustion_fixed_message {ρ : Type} (ex : ElectrumX)
    (oracle : Nat → AttemptResult ρ) (h : ex.base_uris ≠ [])
    (hall : ∀ k, (oracle k).isRetryable = true) :
    (ex.post oracle).result = .err exhaustedMsg :=
  (postLoop_allFail ex.base_uris ex.max_retries oracle hall 0 0 0 0
    (Nat.zero_le _) (List.length_pos.mpr h)).1

/-- C9 witness: the amended exhaustion theorem applied to a concrete client
under an all-failing oracle. -/
theorem post_exhaustion_fixed_message_witness :
    demoEx.base_uris ≠ []
    ∧ (∀ k, (allFailOracle k).isRetryable = true)
    ∧ (demoEx.post allFailOracle).result = .err exhaustedMsg :=
  ⟨by decide, fun _ => rfl,
    post_exhaustion_fixed_message demoEx allFailOracle (by decide)
      (fun _ => rfl)⟩

/-- C10: with non-empty `base_uris`, the loop invariant `uri_index <
base_uris.len()` holds at every attempt (the index is only advanced below
`len - 1`), so the indexing `base_uris[uri_index]` is always in bounds and
the call never panics. -/
theorem post_uri_index_in_bounds {ρ : Type} (ex : ElectrumX)
    (oracle : Nat → AttemptResult ρ) (h : ex.base_uris ≠ []) :
    (ex.post oracle).result ≠ .panicked
    ∧ ∀ e ∈ (ex.post oracle).trace, e.uri_index < ex.base_uris.length :=
  postLoop_no_panic ex.base_uris ex.max_retries oracle 0 0 0 0
    (List.length_pos.mpr h)

/-- C10 witness: the in-bounds theorem applied to a concrete client under an
all-failing oracle. -/
theorem post_uri_index_in_bounds_witness :
    demoEx.base_uris ≠ []
    ∧ ((demoEx.post allFailOracle).result ≠ .panicked
      ∧ ∀ e ∈ (demoEx.post allFailOracle).trace,
          e.uri_index < demoEx.base_uris.length) :=
  ⟨by decide, post_uri_index_in_bounds demoEx allFailOracle (by decide)⟩

/-- C6: envelope unwrapping — `get_by_ticker` unwraps the double-layer
envelope `{"response": {"result": T, …}}` and returns `T`; `listunspent` and
`broadcast` unwrap the single layer `{"response": P}` and return the payload
`P` (the decoded list of `Unspent`, respectively the txid string). -/
theorem envelope_unwrap_shapes (t : Json) (rest : List (String × Json))
    (s : String) (payload : List Json) :
    get_by_ticker (.obj [("response", .obj (("result", t) :: rest))]) = some t
    ∧ listunspent (.obj [("response", .arr payload)])
        = decodeList decodeUnspent payload
    ∧ broadcast (.obj [("response", .str s)]) = some s := by
  refine ⟨?_, ?_, ?_⟩
  · simp [get_by_ticker, decodeResponse, decodeResponseResult, decodeTicker,
      Json.getField, lookupField]
  · cases hdl : decodeList decodeUnspent payload <;>
      simp [listunspent, decodeResponse, decodeArray, Json.getField,
        lookupField, hdl]
  · simp [broadcast, decodeResponse, decodeString, Json.getField, lookupField]

/-- C7 counterexample: for an address string that does not parse, the code
panics (the `unwrap` at `electrumx.rs:72`) instead of failing with an
address-mismatch error — refuting the claim that either failed check leads
to an error rather than a panic. -/
theorem get_unspent_address_parse_panic_counterexample :
    get_unspent_address Network.bitcoin none [] = RustResult.panicked
    ∧ ∀ msg, get_unspent_address Network.bitcoin none []
        ≠ RustResult.err msg := by
  refine ⟨rfl, ?_⟩
  intro msg hmsg
  simp [get_unspent_address] at hmsg

/-- C7 (amended): `get_unspent_address` checks the address before issuing
the RPC: an address that parses but belongs to a different network fails
with the address-mismatch error, and a matching one proceeds to the
scripthash RPC; but an address string that does not parse makes the code
panic (`unwrap`) rather than return an error. -/
theorem get_unspent_address_checks (network : Network)
    (parsed : Option Network) (upstream : List Unspent) :
    (parsed = none →
      get_unspent_address network parsed upstream = RustResult.panicked)
    ∧ (∀ addrNet, parsed = some addrNet → addrNet ≠ network →
        get_unspent_address network parsed upstream
          = RustResult.err "address mismatch")
    ∧ (parsed = some network →
        get_unspent_address network parsed upstream
          = RustResult.ok (get_unspent_scripthash upstream)) := by
  refine ⟨?_, ?_, ?_⟩
  · intro hp
    subst hp
    rfl
  · intro addrNet hp hne
    subst hp
    simp [get_unspent_address, hne]
  · intro hp
    subst hp
    simp [get_unspent_address]

/-- C7 witness: a testnet address against a bitcoin-configured client fails
with the address-mismatch error. -/
theorem get_unspent_address_checks_witness :
    get_unspent_address Network.bitcoin (some Network.testnet) []
      = RustResult.err "address mismatch" :=
  (get_unspent_address_checks Network.bitcoin (some Network.testnet) []).2.1
    Network.testnet rfl (by decide)

/-- C8 counterexample: `build` with empty `base_uris` succeeds — no
configuration error is raised at build time — refuting the claim that
`build` validates that `base_uris` is non-empty. -/
theorem build_empty_base_uris_counterexample :
    ElectrumXBuilder.build ⟨Network.bitcoin, []⟩ true
      = Except.ok ⟨⟨30⟩, Network.bitcoin, [], 3⟩ := rfl

/-- C8 (amended): `build` performs no validation of `base_uris` (an empty
list is accepted unchanged); it succeeds exactly when the HTTP client with
the default 30-second timeout can be constructed, returning the client with
the default retry count 3 and `base_uris` exactly as collected. -/
theorem build_no_validation (b : ElectrumXBuilder) (client_build_ok : Bool) :
    (client_build_ok = true →
      b.build client_build_ok
        = Except.ok ⟨⟨30⟩, b.network, b.base_uris, 3⟩)
    ∧ (client_build_ok = false →
      b.build client_build_ok
        = Except.error "reqwest client build failure") := by
  constructor
  · intro hok
    subst hok
    rfl
  · intro hko
    subst hko
    rfl

/-- C8 witness: `build` on the default builder contents with a working
client constructor returns the default client. -/
theorem build_no_validation_witness :
    ElectrumXBuilder.build
        ⟨Network.bitcoin, ["https://ep.atomicals.xyz/proxy"]⟩ true
      = Except.ok
          ⟨⟨30⟩, Network.bitcoin, ["https://ep.atomicals.xyz/proxy"], 3⟩ :=
  (build_no_validation
    ⟨Network.bitcoin, ["https://ep.atomicals.xyz/proxy"]⟩ true).1 rfl

end Atomicalsir
